import Mathlib

/-!
# Verification of the diff-cut extraction engine

Shallow embedding of the `parser` package's `DiffCut` function and its
helpers (`scanFileHeader`, `scanHunkHeader`, `scanHunkLine`, `strCircBuf`,
`concat`) together with proofs of the specified properties.

The input stream (`io.Reader` wrapped in a `bufio.Scanner`) is modelled as
the list of lines the scanner yields, plus an optional error reported by
`scanner.Err()` once the lines are exhausted (`none` models clean EOF).
The header recognizers `ParseDiffFileHeader` / `ParseDiffHunkHeader` are
external collaborators, modelled as black-box function parameters.
Go `int` values are modelled as `Int` (the spec declares overflow a caller
error, out of scope); the count-valued parameters `BeforeLines`,
`AfterLines`, `LineLimit` are modelled as `Nat`.
-/

/-- `types.HunkHeader`: start lines and spans in old/new file numbering. -/
structure HunkHeader where
  oldLine : Int
  oldSpan : Int
  newLine : Int
  newSpan : Int
deriving Repr, DecidableEq

/-- `types.Hunk`: a hunk header together with the raw text lines. -/
structure Hunk where
  hunkHeader : HunkHeader
  lines : List String
deriving Repr, DecidableEq

/-- `types.DiffCutParams`. -/
structure DiffCutParams where
  lineStart : Int
  lineStartNew : Bool
  lineEnd : Int
  lineEndNew : Bool
  beforeLines : Nat
  afterLines : Nat
  lineLimit : Nat
deriving Repr, DecidableEq

/-- The error outcomes of `DiffCut`: `types.ErrHunkNotFound`, or an error
surfaced verbatim from the underlying stream (`scanner.Err()`). -/
inductive DiffErr where
  | hunkNotFound
  | readErr (msg : String)
deriving Repr, DecidableEq

/-- Go zero value of `types.HunkHeader`. -/
def emptyHunkHeader : HunkHeader := ⟨0, 0, 0, 0⟩

/-- Go zero value of `types.Hunk`. -/
def emptyHunk : Hunk := ⟨emptyHunkHeader, []⟩

/-- `diffAction` is a byte tag; diff lines are ASCII-tagged, so the first
byte of a (valid UTF-8) line agrees with its first character. -/
abbrev diffAction := Char

def actionUnchanged : diffAction := ' '

def actionRemoved : diffAction := '-'

def actionAdded : diffAction := '+'

/-- First character of a line; models Go `s[0]` (all uses are on non-empty
lines whose first byte is ASCII). -/
def firstChar (s : String) : Char :=
  match s.data with
  | [] => 'A'
  | c :: _ => c

/-- `strCircBuf`: fixed-capacity circular buffer of lines. `cap` models the
Go slice capacity fixed at creation, `entries` its current contents. -/
structure strCircBuf where
  cap : Nat
  head : Int
  entries : List String
deriving Repr, DecidableEq

/-- `newStrCircBuf`. -/
def newStrCircBuf (size : Nat) : strCircBuf :=
  { head := -1, cap := size, entries := [] }

/-- `strCircBuf.push`. -/
def strCircBuf.push (b : strCircBuf) (s : String) : strCircBuf :=
  let n := b.cap
  if n = 0 then b
  else
    let head := b.head + 1
    if b.entries.length < n then
      { b with head := head, entries := b.entries ++ [s] }
    else
      let head := if head ≥ (n : Int) then 0 else head
      { b with head := head, entries := b.entries.set head.toNat s }

/-- `strCircBuf.lines`: drain in chronological order. -/
def strCircBuf.lines (b : strCircBuf) : List String :=
  let n := b.cap
  if b.entries.length < n then b.entries
  else (List.range n).map fun (i : Nat) => b.entries.getD ((b.head + 1 + (i : Int)) % (n : Int)).toNat ""

/-- `concat`: ordered assembly of several line slices into one. -/
def concat (a : List (List String)) : List String := a.flatten

/-- `scanFileHeader`: keeps reading lines until the file-header recognizer
matches; the header data itself is discarded by `DiffCut`, so the result is
the remaining stream. Exhaustion surfaces the stream error, else
`ErrHunkNotFound`. -/
def scanFileHeader (fh : String → Bool) : List String → Option String → Except DiffErr (List String)
  | [], none => .error .hunkNotFound
  | [], some e => .error (.readErr e)
  | l :: ls, e => if fh l then .ok ls else scanFileHeader fh ls e

/-- `scanHunkHeader`: keeps reading lines until the hunk-header recognizer
matches, returning the parsed header and the remaining stream. -/
def scanHunkHeader (hh : String → Option HunkHeader) : List String → Option String → Except DiffErr (HunkHeader × List String)
  | [], none => .error .hunkNotFound
  | [], some e => .error (.readErr e)
  | l :: ls, e =>
    match hh l with
    | some h => .ok (h, ls)
    | none => scanHunkHeader hh ls e

/-- Outcome of `scanHunkLine` as observed by `DiffCut`: a non-nil error, a
non-empty classified line, or the `("", nil)` result (clean EOF or an
unrecognized leading byte) which `DiffCut` treats as the hunk terminator. -/
inductive HunkLineResult where
  | err (e : DiffErr)
  | terminator
  | line (s : String) (a : diffAction)
deriving Repr, DecidableEq

/-- The per-line part of `scanHunkLine`, applied to a successfully read
line: an empty line is a hard `ErrHunkNotFound`, an unrecognized leading
byte is the terminator, otherwise the line is classified by its
first byte. -/
def classifyHunkLine (l : String) : HunkLineResult :=
  if l = "" then .err .hunkNotFound
  else
    let action := firstChar l
    if action ≠ actionRemoved ∧ action ≠ actionAdded ∧ action ≠ actionUnchanged then
      .terminator
    else
      .line l action

/-- `scanHunkLine`: reads one line from the scanner. On `Scan()` failure,
surfaces `scan.Err()` if non-nil, otherwise the terminator (EOF). -/
def scanHunkLine : List String → Option String → HunkLineResult × List String
  | [], none => (.terminator, [])
  | [], some e => (.err (.readErr e), [])
  | l :: ls, _ => (classifyHunkLine l, ls)

/-- The mutable state of `DiffCut`'s scan loop (scanner position kept
separately so the loop is structurally recursive on the remaining lines). -/
structure LoopCore where
  currentOldLine : Int
  currentNewLine : Int
  inCut : Bool
  diffCutHeader : HunkHeader
  diffCut : List String
  buf : strCircBuf
deriving Repr, DecidableEq

/-- How the scan loop ended: via the termination guard (tracked bound
exceeded `LineEnd`), via the safety break (`len(diffCut) > LineLimit`), or
via the terminator line / clean EOF (Go records `err = io.EOF`). -/
inductive LoopExit where
  | guard
  | safety
  | eofTerm
deriving Repr, DecidableEq

/-- The termination guard at the top of the loop. -/
def exceededEnd (params : DiffCutParams) (core : LoopCore) : Bool :=
  if params.lineEndNew then core.currentNewLine > params.lineEnd
  else core.currentOldLine > params.lineEnd

/-- The routing decision: still before the requested window start. -/
def beforeStart (params : DiffCutParams) (core : LoopCore) : Bool :=
  if params.lineStartNew then core.currentNewLine < params.lineStart
  else core.currentOldLine < params.lineStart

/-- Lines 86–92 of the loop: increment the line numbers. -/
def advanceLines (action : diffAction) (c : LoopCore) : LoopCore :=
  let c := if action ≠ actionRemoved then { c with currentNewLine := c.currentNewLine + 1 } else c
  if action ≠ actionAdded then { c with currentOldLine := c.currentOldLine + 1 } else c

/-- Lines 67–80 of the loop: snapshot the cut header on the first included
line, update its spans for this line, and append the line to the cut. -/
def includeLine (line : String) (action : diffAction) (core : LoopCore) : LoopCore :=
  let hdr0 := if core.inCut then core.diffCutHeader
    else { core.diffCutHeader with newLine := core.currentNewLine, oldLine := core.currentOldLine }
  let hdr1 := if action ≠ actionRemoved then { hdr0 with newSpan := hdr0.newSpan + 1 } else hdr0
  let hdr2 := if action ≠ actionAdded then { hdr1 with oldSpan := hdr1.oldSpan + 1 } else hdr1
  { core with inCut := true, diffCutHeader := hdr2, diffCut := core.diffCut ++ [line] }

/-- The scan loop of `DiffCut` (lines 43–93): consumes stream lines one at
a time, returning how the loop ended, the final state and the remaining
stream, or the error that aborted it. -/
def diffCutLoop (params : DiffCutParams) (endErr : Option String) (core : LoopCore) :
    List String → Except DiffErr (LoopExit × LoopCore × List String)
  | [] =>
    if exceededEnd params core then .ok (.guard, core, [])
    else
      match endErr with
      | some e => .error (.readErr e)
      | none => .ok (.eofTerm, core, [])
  | l :: ls =>
    if exceededEnd params core then .ok (.guard, core, l :: ls)
    else
      match classifyHunkLine l with
      | .err e => .error e
      | .terminator => .ok (.eofTerm, core, ls)
      | .line line action =>
        if beforeStart params core then
          diffCutLoop params endErr (advanceLines action { core with buf := core.buf.push line }) ls
        else
          let core' := includeLine line action core
          if core'.diffCut.length > params.lineLimit then .ok (.safety, core', ls)
          else diffCutLoop params endErr (advanceLines action core') ls

/-- The trailing-context loop (lines 106–115): pull up to `afterLines`
lines, stopping early on an empty line; if `Scan()` fails, the loop stops
and `scanner.Err()` is returned alongside the collected lines. -/
def collectAfter : Nat → List String → Option String → List String × Option String
  | 0, _, _ => ([], none)
  | _ + 1, [], e => ([], e)
  | n + 1, l :: ls, e =>
    if l = "" then ([], none)
    else
      let r := collectAfter n ls e
      (l :: r.1, r.2)

/-- Step 8, lines 120–130: walk the window start backward over a buffered
"before" line and extend the spans. -/
def adjustBefore (h : HunkHeader) (s : String) : HunkHeader :=
  let action : diffAction := firstChar s
  let h := if action ≠ actionRemoved then { h with newLine := h.newLine - 1, newSpan := h.newSpan + 1 } else h
  if action ≠ actionAdded then { h with oldLine := h.oldLine - 1, oldSpan := h.oldSpan + 1 } else h

/-- Step 8, lines 132–140: extend the spans over a trailing-context line. -/
def adjustAfter (h : HunkHeader) (s : String) : HunkHeader :=
  let action : diffAction := firstChar s
  let h := if action ≠ actionRemoved then { h with newSpan := h.newSpan + 1 } else h
  if action ≠ actionAdded then { h with oldSpan := h.oldSpan + 1 } else h

/-- The loop state right after the hunk header was located. -/
def initCore (hunkHeader : HunkHeader) (params : DiffCutParams) : LoopCore :=
  { currentOldLine := hunkHeader.oldLine
    currentNewLine := hunkHeader.newLine
    inCut := false
    diffCutHeader := emptyHunkHeader
    diffCut := []
    buf := newStrCircBuf params.beforeLines }

/-- `DiffCut`: the exported entry point. Mirrors the Go signature
`(types.HunkHeader, types.Hunk, error)`: the error is the third component
and the first two are Go zero values whenever it is non-nil. -/
def DiffCut (fh : String → Bool) (hh : String → Option HunkHeader)
    (input : List String) (endErr : Option String) (params : DiffCutParams) :
    HunkHeader × Hunk × Option DiffErr :=
  match scanFileHeader fh input endErr with
  | .error e => (emptyHunkHeader, emptyHunk, some e)
  | .ok s1 =>
    match scanHunkHeader hh s1 endErr with
    | .error e => (emptyHunkHeader, emptyHunk, some e)
    | .ok (hunkHeader, s2) =>
      match diffCutLoop params endErr (initCore hunkHeader params) s2 with
      | .error e => (emptyHunkHeader, emptyHunk, some e)
      | .ok (exit, core, s3) =>
        if core.inCut = false then (emptyHunkHeader, emptyHunk, some .hunkNotFound)
        else
          let linesBefore := core.buf.lines
          match (if exit = .eofTerm then (([] : List String), (none : Option String))
                 else collectAfter params.afterLines s3 endErr) with
          | (_, some e) => (emptyHunkHeader, emptyHunk, some (.readErr e))
          | (linesAfter, none) =>
            let diffCutHeaderLines :=
              linesAfter.foldl adjustAfter (linesBefore.foldl adjustBefore core.diffCutHeader)
            (core.diffCutHeader,
             { hunkHeader := diffCutHeaderLines,
               lines := concat [linesBefore, core.diffCut, linesAfter] },
             none)

/-- Projection of the success path of `DiffCut`: the loop exit kind, the
final loop state, and the collected trailing context; `none` whenever
`DiffCut` returns an error. -/
def diffCutPhases (fh : String → Bool) (hh : String → Option HunkHeader)
    (input : List String) (endErr : Option String) (params : DiffCutParams) :
    Option (LoopExit × LoopCore × List String) :=
  match scanFileHeader fh input endErr with
  | .error _ => none
  | .ok s1 =>
    match scanHunkHeader hh s1 endErr with
    | .error _ => none
    | .ok (hunkHeader, s2) =>
      match diffCutLoop params endErr (initCore hunkHeader params) s2 with
      | .error _ => none
      | .ok (exit, core, s3) =>
        if core.inCut = false then none
        else
          match (if exit = .eofTerm then (([] : List String), (none : Option String))
                 else collectAfter params.afterLines s3 endErr) with
          | (_, some _) => none
          | (linesAfter, none) => some (exit, core, linesAfter)

/-- Number of lines whose action (first byte) is not `added`; the quantity
`OldSpan` is meant to track. -/
def countNotAdded (ls : List String) : Nat :=
  (ls.filter fun s => firstChar s != actionAdded).length

/-- Number of lines whose action (first byte) is not `removed`; the
quantity `NewSpan` is meant to track. -/
def countNotRemoved (ls : List String) : Nat :=
  (ls.filter fun s => firstChar s != actionRemoved).length

/-! ## Concrete recognizers, inputs and states used in witnesses and
counterexamples -/

/-- A concrete instance of the black-box file-header recognizer. -/
def fhT : String → Bool := fun s => s = "FH"

/-- A concrete hunk-header recognizer, mapping `"HH"` to the header of a
hunk `@@ -5,4 +5,5 @@`. -/
def hhT : String → Option HunkHeader := fun s => if s = "HH" then some ⟨5, 4, 5, 5⟩ else none

/-- A concrete hunk-header recognizer for a hunk starting at old line 8 and
new line 8. -/
def hhT8 : String → Option HunkHeader := fun s => if s = "HH" then some ⟨8, 6, 8, 8⟩ else none

def inS : List String := ["FH", "HH", " a", "-b", "+c", "+d", " e"]

def pS : DiffCutParams := ⟨6, false, 6, false, 1, 1, 10⟩

def coreS : LoopCore := ⟨7, 6, true, ⟨6, 1, 6, 0⟩, ["-b"], ⟨1, 0, [" a"]⟩⟩

def inC6 : List String := ["FH", "HH", " a", ""]

def inC6T : List String := ["FH", "HH", " a", "XX"]

def pC6 : DiffCutParams := ⟨5, false, 100, false, 0, 0, 10⟩

def inC7 : List String := ["FH", "HH", " a", " b", " c", " d"]

def pC7 : DiffCutParams := ⟨5, false, 100, false, 0, 2, 0⟩

def pC7w : DiffCutParams := ⟨5, false, 5, false, 0, 2, 10⟩

def coreC5 : LoopCore := ⟨5, 5, true, ⟨5, 1, 5, 1⟩, [" a"], ⟨0, -1, []⟩⟩

def coreC7w : LoopCore := ⟨6, 6, true, ⟨5, 1, 5, 1⟩, [" a"], ⟨0, -1, []⟩⟩

def in8 : List String := ["FH", "HH", " a", "+b", "+c", " d", " e", " f"]

def p8A : DiffCutParams := ⟨10, false, 10, false, 0, 0, 100⟩

def p8B : DiffCutParams := ⟨12, true, 12, true, 0, 0, 100⟩

/-! ## Ring buffer verification -/

/-- Abstract effect of one `push` on the drained contents of a
capacity-`k` buffer. -/
def absPush (k : Nat) (l : List String) (s : String) : List String :=
  if k = 0 then [] else if l.length < k then l ++ [s] else l.tail ++ [s]

/-- Well-formedness of a `strCircBuf` state reachable from
`newStrCircBuf`. -/
def strCircBuf.Inv (b : strCircBuf) : Prop :=
  b.entries.length ≤ b.cap ∧
  (b.entries.length < b.cap → b.head + 1 = b.entries.length) ∧
  (0 < b.cap → b.entries.length = b.cap → 0 ≤ b.head ∧ b.head < (b.cap : Int))

lemma strCircBuf.inv_new (k : Nat) : (newStrCircBuf k).Inv := by
  refine ⟨by simp [newStrCircBuf], by simp [newStrCircBuf], ?_⟩
  intro hk h
  simp [newStrCircBuf] at h hk
  omega

lemma strCircBuf.lines_new (k : Nat) : (newStrCircBuf k).lines = [] := by
  rcases Nat.eq_zero_or_pos k with hk | hk
  · subst hk; simp [newStrCircBuf, strCircBuf.lines]
  · simp [newStrCircBuf, strCircBuf.lines, hk]

lemma strCircBuf.push_cap (b : strCircBuf) (s : String) : (b.push s).cap = b.cap := by
  simp only [strCircBuf.push]
  split
  · rfl
  · split <;> rfl

lemma getD_range_map (l : List String) (n : Nat) (h : l.length = n) :
    ((List.range n).map fun i => l.getD i "") = l := by
  apply List.ext_getElem
  · simp [h]
  · intro i h1 h2
    simp only [List.getElem_map, List.getElem_range]
    rw [List.getD_eq_getElem?_getD, List.getElem?_eq_getElem h2]
    rfl

lemma emod_window (a k : Int) (hk : 0 < k) (h0 : 0 ≤ a) (h2 : a < 2 * k) :
    a % k = if a < k then a else a - k := by
  split
  · exact Int.emod_eq_of_lt h0 (by omega)
  · have h1 : a % k = (a - k) % k := by
      conv_lhs => rw [show a = a - k + k * 1 by ring]
      rw [Int.add_mul_emod_self_left]
    rw [h1, Int.emod_eq_of_lt (by omega) (by omega)]

lemma getD_set_ne (l : List String) (m j : Nat) (a d : String) (h : m ≠ j) :
    (l.set m a).getD j d = l.getD j d := by
  simp [List.getD_eq_getElem?_getD, List.getElem?_set_ne h]

lemma getD_set_self (l : List String) (m : Nat) (a d : String) (h : m < l.length) :
    (l.set m a).getD m d = a := by
  simp [List.getD_eq_getElem?_getD, List.getElem?_set_self h]

lemma strCircBuf.push_zero (b : strCircBuf) (s : String) (h : b.cap = 0) : b.push s = b := by
  simp [strCircBuf.push, h]

lemma strCircBuf.lines_zero (b : strCircBuf) (h : b.cap = 0) : b.lines = [] := by
  simp [strCircBuf.lines, h]

lemma strCircBuf.push_partial (b : strCircBuf) (s : String) (hlt : b.entries.length < b.cap) :
    b.push s = { b with head := b.head + 1, entries := b.entries ++ [s] } := by
  have h0 : b.cap ≠ 0 := by omega
  simp [strCircBuf.push, h0, hlt]

lemma strCircBuf.push_full (b : strCircBuf) (s : String) (hk : 0 < b.cap)
    (heq : b.entries.length = b.cap) :
    b.push s = { b with
      head := if b.head + 1 ≥ (b.cap : Int) then 0 else b.head + 1,
      entries := b.entries.set (if b.head + 1 ≥ (b.cap : Int) then 0 else b.head + 1).toNat s } := by
  have h0 : b.cap ≠ 0 := by omega
  have h1 : ¬ b.entries.length < b.cap := by omega
  simp [strCircBuf.push, h0, h1]

lemma strCircBuf.lines_partial (b : strCircBuf) (hlt : b.entries.length < b.cap) :
    b.lines = b.entries := by
  simp [strCircBuf.lines, hlt]

lemma strCircBuf.lines_full (b : strCircBuf) (heq : b.entries.length = b.cap) :
    b.lines = (List.range b.cap).map
      (fun (i : Nat) => b.entries.getD ((b.head + 1 + (i : Int)) % (b.cap : Int)).toNat "") := by
  unfold strCircBuf.lines
  rw [if_neg (by omega)]

lemma strCircBuf.lines_length_full (b : strCircBuf) (heq : b.entries.length = b.cap) :
    b.lines.length = b.cap := by
  rw [strCircBuf.lines_full b heq]
  rw [List.length_map, List.length_range]

lemma strCircBuf.push_lines_partial (b : strCircBuf) (s : String) (hb : b.Inv)
    (hlt : b.entries.length < b.cap) :
    (b.push s).lines = b.entries ++ [s] := by
  obtain ⟨-, h2, -⟩ := hb
  have hh := h2 hlt
  rw [strCircBuf.push_partial b s hlt]
  by_cases h4 : b.entries.length + 1 < b.cap
  · unfold strCircBuf.lines
    rw [if_pos (by simpa using h4)]
  · have h5 : b.entries.length + 1 = b.cap := by omega
    unfold strCircBuf.lines
    rw [if_neg (by simp; omega)]
    simp only []
    have hidx : ∀ i ∈ List.range b.cap,
        (b.entries ++ [s]).getD ((b.head + 1 + 1 + (i : Int)) % (b.cap : Int)).toNat "" =
        (b.entries ++ [s]).getD i "" := by
      intro i hi
      have hi' : i < b.cap := List.mem_range.mp hi
      have harg : b.head + 1 + 1 + (i : Int) = (i : Int) + (b.cap : Int) * 1 := by
        push_cast
        omega
      rw [harg, Int.add_mul_emod_self_left,
        Int.emod_eq_of_lt (by positivity) (by exact_mod_cast hi')]
      simp
    rw [List.map_congr_left hidx]
    exact getD_range_map _ _ (by simp; omega)

lemma strCircBuf.push_lines_full (b : strCircBuf) (s : String) (hb : b.Inv) (hk : 0 < b.cap)
    (heq : b.entries.length = b.cap) :
    (b.push s).lines = b.lines.tail ++ [s] := by
  obtain ⟨-, -, h3⟩ := hb
  obtain ⟨hh0, hh1⟩ := h3 hk heq
  rw [strCircBuf.push_full b s hk heq]
  have hHeq : (if b.head + 1 ≥ (b.cap : Int) then 0 else b.head + 1) = (b.head + 1) % (b.cap : Int) := by
    rw [emod_window (b.head + 1) (b.cap : Int) (by exact_mod_cast hk) (by omega) (by omega)]
    split <;> split <;> omega
  rw [hHeq]
  set k := b.cap with hkdef
  set H : Int := (b.head + 1) % (k : Int) with hHdef
  have hkz : ((k : Int)) ≠ 0 := by exact_mod_cast Nat.pos_iff_ne_zero.mp hk
  have hH0 : 0 ≤ H := Int.emod_nonneg _ hkz
  have hH1 : H < (k : Int) := Int.emod_lt_of_pos _ (by exact_mod_cast hk)
  have hlen' : (b.entries.set H.toNat s).length = k := by rw [List.length_set, heq]
  have hlines' : ({ b with head := H, entries := b.entries.set H.toNat s } : strCircBuf).lines =
      (List.range k).map
        (fun (i : Nat) => (b.entries.set H.toNat s).getD ((H + 1 + (i : Int)) % (k : Int)).toNat "") := by
    unfold strCircBuf.lines
    rw [if_neg (by simp [hlen'])]
  rw [hlines', strCircBuf.lines_full b heq]
  apply List.ext_getElem
  · simp only [List.length_append, List.length_tail, List.length_map, List.length_range,
      List.length_singleton]
    omega
  · intro i hi1 hi2
    have hik : i < k := by simpa using hi1
    rw [List.getElem_map, List.getElem_range]
    by_cases hc : i + 1 < k
    · rw [List.getElem_append_left (by simp only [List.length_tail, List.length_map, List.length_range]; omega)]
      rw [List.getElem_tail, List.getElem_map, List.getElem_range]
      have hmod : (H + 1 + (i : Int)) % (k : Int) = (b.head + 1 + ((i : Nat) + 1 : Nat)) % (k : Int) := by
        have h1 : H + 1 + (i : Int) = H + (1 + (i : Int)) := by ring
        have h2 : b.head + 1 + ((i : Nat) + 1 : Nat) = (b.head + 1) + (1 + (i : Int)) := by
          push_cast
          ring
      
        rw [h1, h2, hHdef, Int.emod_add_emod]
      rw [hmod]
      apply getD_set_ne
      have harg0 : (0 : Int) ≤ b.head + 1 + ((i : Nat) + 1 : Nat) := by push_cast; omega
      have harg2 : b.head + 1 + ((i : Nat) + 1 : Nat) < 2 * (k : Int) := by push_cast; omega
      rw [emod_window _ _ (by exact_mod_cast hk) harg0 harg2]
      have hHw : H = if b.head + 1 < (k : Int) then b.head + 1 else b.head + 1 - k := by
        rw [hHdef, emod_window _ _ (by exact_mod_cast hk) (by omega) (by omega)]
      rw [hHw]
      split <;> split <;> (push_cast; omega)
    · have hieq : i = k - 1 := by omega
      rw [List.getElem_append_right (by simp only [List.length_tail, List.length_map, List.length_range]; omega)]
      simp only [List.length_tail, List.length_map, List.length_range]
      rw [List.getElem_singleton]
      have hmod : (H + 1 + (i : Int)) % (k : Int) = H := by
        have harg : H + 1 + (i : Int) = H + (k : Int) := by push_cast; omega
        rw [harg, emod_window _ _ (by exact_mod_cast hk) (by omega) (by omega)]
        rw [if_neg (by omega)]
        ring
      rw [hmod]
      exact getD_set_self _ _ _ _ (by rw [heq]; omega)

lemma strCircBuf.push_inv (b : strCircBuf) (s : String) (hb : b.Inv) : (b.push s).Inv := by
  obtain ⟨h1, h2, h3⟩ := hb
  rcases Nat.eq_zero_or_pos b.cap with hk | hk
  · rw [strCircBuf.push_zero b s hk]
    exact ⟨h1, h2, h3⟩
  · by_cases hlt : b.entries.length < b.cap
    · have hh := h2 hlt
      rw [strCircBuf.push_partial b s hlt]
      refine ⟨by simp; omega, ?_, ?_⟩
      · intro hlen
        simp only [List.length_append, List.length_singleton]
        simp only [List.length_append, List.length_singleton] at hlen
        push_cast
        omega
      · intro _ hlen
        simp only [List.length_append, List.length_singleton] at hlen
        constructor <;> (push_cast; omega)
    · have heq : b.entries.length = b.cap := by omega
      obtain ⟨hh0, hh1⟩ := h3 hk heq
      rw [strCircBuf.push_full b s hk heq]
      refine ⟨by simp [heq], ?_, ?_⟩
      · intro hlen
        simp [List.length_set, heq] at hlen
      · intro _ _
        dsimp only
        constructor <;> (split <;> omega)

lemma strCircBuf.push_lines (b : strCircBuf) (s : String) (hb : b.Inv) :
    (b.push s).lines = absPush b.cap b.lines s := by
  have hI1 : b.entries.length ≤ b.cap := hb.1
  rcases Nat.eq_zero_or_pos b.cap with hk | hk
  · rw [strCircBuf.push_zero b s hk, strCircBuf.lines_zero b hk]
    simp [absPush, hk]
  · by_cases hlt : b.entries.length < b.cap
    · rw [strCircBuf.push_lines_partial b s hb hlt, strCircBuf.lines_partial b hlt]
      rw [absPush, if_neg (by omega), if_pos hlt]
    · have heq : b.entries.length = b.cap := by omega
      rw [strCircBuf.push_lines_full b s hb hk heq]
      rw [absPush, if_neg (by omega), if_neg (by rw [strCircBuf.lines_length_full b heq]; omega)]

lemma foldl_push_lines (xs : List String) : ∀ b : strCircBuf, b.Inv →
    (xs.foldl strCircBuf.push b).lines = xs.foldl (absPush b.cap) b.lines ∧
    (xs.foldl strCircBuf.push b).Inv ∧ (xs.foldl strCircBuf.push b).cap = b.cap := by
  induction xs with
  | nil => exact fun b hb => ⟨rfl, hb, rfl⟩
  | cons x xs ih =>
    intro b hb
    simp only [List.foldl_cons]
    obtain ⟨ih1, ih2, ih3⟩ := ih (b.push x) (strCircBuf.push_inv b x hb)
    rw [ih1, strCircBuf.push_cap, strCircBuf.push_lines b x hb]
    exact ⟨rfl, ih2, by rw [ih3, strCircBuf.push_cap]⟩

lemma absPush_length_le (k : Nat) (l : List String) (s : String) (h : l.length ≤ k) :
    (absPush k l s).length ≤ k := by
  unfold absPush
  split
  · simp
  · split
    · simp
      omega
    · simp [List.length_tail]
      omega

lemma foldl_absPush (k : Nat) (xs : List String) : ∀ l : List String, l.length ≤ k →
    xs.foldl (absPush k) l = (l ++ xs).drop (l.length + xs.length - k) := by
  induction xs with
  | nil =>
    intro l h
    simp [Nat.sub_eq_zero_of_le h]
  | cons x xs ih =>
    intro l h
    simp only [List.foldl_cons]
    rcases Nat.eq_zero_or_pos k with hk | hk
    · subst hk
      have hl : l = [] := List.eq_nil_of_length_eq_zero (by omega)
      subst hl
      have h1 : absPush 0 [] x = [] := by simp [absPush]
      rw [h1, ih [] (by simp)]
      simp [List.drop_length]
    · by_cases hlt : l.length < k
      · have hx : absPush k l x = l ++ [x] := by
          rw [absPush, if_neg (by omega), if_pos hlt]
        rw [hx, ih (l ++ [x]) (by simp only [List.length_append, List.length_singleton, List.length_cons, List.length_nil]; omega)]
        have hc : (l ++ [x]).length + xs.length = l.length + (x :: xs).length := by
          simp only [List.length_append, List.length_singleton, List.length_cons, List.length_nil]
          omega
        rw [hc, List.append_assoc, List.singleton_append]
      · have hl : l.length = k := by omega
        have hne : l ≠ [] := by
          intro h0
          subst h0
          simp at hl
          omega
        obtain ⟨a, l', rfl⟩ := List.exists_cons_of_ne_nil hne
        have hx : absPush k (a :: l') x = l' ++ [x] := by
          rw [absPush, if_neg (by omega), if_neg (by omega)]
          rfl
        rw [hx, ih (l' ++ [x]) (by simp at hl ⊢; omega)]
        have hc1 : (l' ++ [x]).length + xs.length - k = xs.length := by
          simp only [List.length_append, List.length_singleton, List.length_cons, List.length_nil]
          simp only [List.length_cons] at hl
          omega
        have hc2 : (a :: l').length + (x :: xs).length - k = xs.length + 1 := by
          simp only [List.length_cons] at hl ⊢
          omega
        rw [hc1, hc2, List.append_assoc, List.singleton_append, List.cons_append,
          List.drop_succ_cons]

/-! ## Scan loop lemmas -/

lemma classify_line_eq (l s : String) (a : diffAction) (h : classifyHunkLine l = .line s a) :
    s = l ∧ a = firstChar l ∧ l ≠ "" := by
  by_cases h0 : l = ""
  · rw [classifyHunkLine, if_pos h0] at h
    exact absurd h (by simp)
  · by_cases ht : firstChar l ≠ actionRemoved ∧ firstChar l ≠ actionAdded ∧ firstChar l ≠ actionUnchanged
    · have : classifyHunkLine l = .terminator := by
        rw [classifyHunkLine, if_neg h0]
        exact if_pos ht
      rw [this] at h
      exact absurd h (by simp)
    · have : classifyHunkLine l = .line l (firstChar l) := by
        rw [classifyHunkLine, if_neg h0]
        exact if_neg ht
      rw [this] at h
      cases h
      exact ⟨rfl, rfl, h0⟩

lemma advanceLines_fields (a : diffAction) (c : LoopCore) :
    (advanceLines a c).inCut = c.inCut ∧
    (advanceLines a c).diffCutHeader = c.diffCutHeader ∧
    (advanceLines a c).diffCut = c.diffCut ∧
    (advanceLines a c).buf = c.buf := by
  unfold advanceLines
  split <;> split <;> exact ⟨rfl, rfl, rfl, rfl⟩

lemma includeLine_fields (l : String) (a : diffAction) (c : LoopCore) :
    (includeLine l a c).diffCut = c.diffCut ++ [l] ∧
    (includeLine l a c).inCut = true ∧
    (includeLine l a c).buf = c.buf := by
  unfold includeLine
  exact ⟨rfl, rfl, rfl⟩

lemma includeLine_counts (l : String) (c : LoopCore)
    (h1 : c.diffCutHeader.oldSpan = (countNotAdded c.diffCut : Int))
    (h2 : c.diffCutHeader.newSpan = (countNotRemoved c.diffCut : Int)) :
    (includeLine l (firstChar l) c).diffCutHeader.oldSpan = (countNotAdded (c.diffCut ++ [l]) : Int) ∧
    (includeLine l (firstChar l) c).diffCutHeader.newSpan = (countNotRemoved (c.diffCut ++ [l]) : Int) := by
  have hca : countNotAdded (c.diffCut ++ [l]) =
      countNotAdded c.diffCut + (if firstChar l ≠ actionAdded then 1 else 0) := by
    unfold countNotAdded
    rw [List.filter_append, List.length_append]
    by_cases h : firstChar l = actionAdded
    · simp [List.filter_cons, h]
    · simp [List.filter_cons, h]
  have hcr : countNotRemoved (c.diffCut ++ [l]) =
      countNotRemoved c.diffCut + (if firstChar l ≠ actionRemoved then 1 else 0) := by
    unfold countNotRemoved
    rw [List.filter_append, List.length_append]
    by_cases h : firstChar l = actionRemoved
    · simp [List.filter_cons, h]
    · simp [List.filter_cons, h]
  have hne1 : actionAdded ≠ actionRemoved := by decide
  have hne2 : actionRemoved ≠ actionAdded := by decide
  by_cases ha : firstChar l = actionAdded
  · have hr : ¬ firstChar l = actionRemoved := by rw [ha]; decide
    cases hin : c.inCut <;> simp [includeLine, hin, ha, hr, hca, hcr, h1, h2, hne1, hne2]
  · by_cases hr : firstChar l = actionRemoved
    · cases hin : c.inCut <;> simp [includeLine, hin, ha, hr, hca, hcr, h1, h2, hne1, hne2]
    · cases hin : c.inCut <;> simp [includeLine, hin, ha, hr, hca, hcr, h1, h2, hne1, hne2]

lemma diffCutLoop_nil_guard (params : DiffCutParams) (endErr : Option String) (core : LoopCore)
    (hg : exceededEnd params core = true) :
    diffCutLoop params endErr core [] = .ok (.guard, core, []) := by
  simp only [diffCutLoop]
  rw [if_pos hg]

lemma diffCutLoop_nil_err (params : DiffCutParams) (core : LoopCore) (e : String)
    (hg : exceededEnd params core = false) :
    diffCutLoop params (some e) core [] = .error (.readErr e) := by
  simp only [diffCutLoop]
  rw [if_neg (by simp [hg])]

lemma diffCutLoop_nil_eof (params : DiffCutParams) (core : LoopCore)
    (hg : exceededEnd params core = false) :
    diffCutLoop params none core [] = .ok (.eofTerm, core, []) := by
  simp only [diffCutLoop]
  rw [if_neg (by simp [hg])]

lemma diffCutLoop_cons_guard (params : DiffCutParams) (endErr : Option String) (core : LoopCore)
    (l : String) (ls : List String) (hg : exceededEnd params core = true) :
    diffCutLoop params endErr core (l :: ls) = .ok (.guard, core, l :: ls) := by
  simp only [diffCutLoop]
  rw [if_pos hg]

lemma diffCutLoop_cons_err (params : DiffCutParams) (endErr : Option String) (core : LoopCore)
    (l : String) (ls : List String) (e : DiffErr)
    (hg : exceededEnd params core = false) (hcl : classifyHunkLine l = .err e) :
    diffCutLoop params endErr core (l :: ls) = .error e := by
  simp only [diffCutLoop]
  rw [if_neg (by simp [hg]), hcl]

lemma diffCutLoop_cons_term (params : DiffCutParams) (endErr : Option String) (core : LoopCore)
    (l : String) (ls : List String)
    (hg : exceededEnd params core = false) (hcl : classifyHunkLine l = .terminator) :
    diffCutLoop params endErr core (l :: ls) = .ok (.eofTerm, core, ls) := by
  simp only [diffCutLoop]
  rw [if_neg (by simp [hg]), hcl]

lemma diffCutLoop_cons_seek (params : DiffCutParams) (endErr : Option String) (core : LoopCore)
    (l s : String) (ls : List String) (a : diffAction)
    (hg : exceededEnd params core = false) (hcl : classifyHunkLine l = .line s a)
    (hbs : beforeStart params core = true) :
    diffCutLoop params endErr core (l :: ls) =
      diffCutLoop params endErr (advanceLines a { core with buf := core.buf.push s }) ls := by
  simp only [diffCutLoop]
  rw [if_neg (by simp [hg]), hcl]
  dsimp only
  rw [if_pos hbs]

lemma diffCutLoop_cons_safety (params : DiffCutParams) (endErr : Option String) (core : LoopCore)
    (l s : String) (ls : List String) (a : diffAction)
    (hg : exceededEnd params core = false) (hcl : classifyHunkLine l = .line s a)
    (hbs : beforeStart params core = false)
    (hlim : (includeLine s a core).diffCut.length > params.lineLimit) :
    diffCutLoop params endErr core (l :: ls) = .ok (.safety, includeLine s a core, ls) := by
  simp only [diffCutLoop]
  rw [if_neg (by simp [hg]), hcl]
  dsimp only
  rw [if_neg (by simp [hbs]), if_pos hlim]

lemma diffCutLoop_cons_cut (params : DiffCutParams) (endErr : Option String) (core : LoopCore)
    (l s : String) (ls : List String) (a : diffAction)
    (hg : exceededEnd params core = false) (hcl : classifyHunkLine l = .line s a)
    (hbs : beforeStart params core = false)
    (hlim : ¬ (includeLine s a core).diffCut.length > params.lineLimit) :
    diffCutLoop params endErr core (l :: ls) =
      diffCutLoop params endErr (advanceLines a (includeLine s a core)) ls := by
  simp only [diffCutLoop]
  rw [if_neg (by simp [hg]), hcl]
  dsimp only
  rw [if_neg (by simp [hbs]), if_neg hlim]

lemma diffCutLoop_counts (params : DiffCutParams) (endErr : Option String) :
    ∀ (rest : List String) (core : LoopCore) (exit : LoopExit) (core' : LoopCore) (rest' : List String),
      core.diffCutHeader.oldSpan = (countNotAdded core.diffCut : Int) →
      core.diffCutHeader.newSpan = (countNotRemoved core.diffCut : Int) →
      diffCutLoop params endErr core rest = .ok (exit, core', rest') →
      core'.diffCutHeader.oldSpan = (countNotAdded core'.diffCut : Int) ∧
      core'.diffCutHeader.newSpan = (countNotRemoved core'.diffCut : Int) := by
  intro rest
  induction rest with
  | nil =>
    intro core exit core' rest' h1 h2 hrun
    cases hg : exceededEnd params core with
    | true =>
      rw [diffCutLoop_nil_guard params endErr core hg] at hrun
      simp only [Except.ok.injEq, Prod.mk.injEq] at hrun
      obtain ⟨-, hc, -⟩ := hrun
      subst hc
      exact ⟨h1, h2⟩
    | false =>
      cases hee : endErr with
      | some e =>
        rw [hee, diffCutLoop_nil_err params core e hg] at hrun
        exact absurd hrun (by simp)
      | none =>
        rw [hee, diffCutLoop_nil_eof params core hg] at hrun
        simp only [Except.ok.injEq, Prod.mk.injEq] at hrun
        obtain ⟨-, hc, -⟩ := hrun
        subst hc
        exact ⟨h1, h2⟩
  | cons l ls ih =>
    intro core exit core' rest' h1 h2 hrun
    cases hg : exceededEnd params core with
    | true =>
      rw [diffCutLoop_cons_guard params endErr core l ls hg] at hrun
      simp only [Except.ok.injEq, Prod.mk.injEq] at hrun
      obtain ⟨-, hc, -⟩ := hrun
      subst hc
      exact ⟨h1, h2⟩
    | false =>
      cases hcl : classifyHunkLine l with
      | err e =>
        rw [diffCutLoop_cons_err params endErr core l ls e hg hcl] at hrun
        exact absurd hrun (by simp)
      | terminator =>
        rw [diffCutLoop_cons_term params endErr core l ls hg hcl] at hrun
        simp only [Except.ok.injEq, Prod.mk.injEq] at hrun
        obtain ⟨-, hc, -⟩ := hrun
        subst hc
        exact ⟨h1, h2⟩
      | line s a =>
        obtain ⟨hsl, hal, -⟩ := classify_line_eq l s a hcl
        rw [hsl, hal] at hcl
        cases hbs : beforeStart params core with
        | true =>
          rw [diffCutLoop_cons_seek params endErr core l l ls (firstChar l) hg hcl hbs] at hrun
          have hf := advanceLines_fields (firstChar l) { core with buf := core.buf.push l }
          exact ih _ exit core' rest'
            (by rw [hf.2.1, hf.2.2.1]; exact h1)
            (by rw [hf.2.1, hf.2.2.1]; exact h2) hrun
        | false =>
          obtain ⟨hic1, hic2⟩ := includeLine_counts l core h1 h2
          have hff := includeLine_fields l (firstChar l) core
          by_cases hlim : (includeLine l (firstChar l) core).diffCut.length > params.lineLimit
          · rw [diffCutLoop_cons_safety params endErr core l l ls (firstChar l) hg hcl hbs hlim] at hrun
            simp only [Except.ok.injEq, Prod.mk.injEq] at hrun
            obtain ⟨-, hc, -⟩ := hrun
            subst hc
            rw [hff.1]
            exact ⟨hic1, hic2⟩
          · rw [diffCutLoop_cons_cut params endErr core l l ls (firstChar l) hg hcl hbs hlim] at hrun
            have hf2 := advanceLines_fields (firstChar l) (includeLine l (firstChar l) core)
            exact ih _ exit core' rest'
              (by rw [hf2.2.1, hf2.2.2.1, hff.1]; exact hic1)
              (by rw [hf2.2.1, hf2.2.2.1, hff.1]; exact hic2) hrun

lemma diffCutLoop_limit (params : DiffCutParams) (endErr : Option String) :
    ∀ (rest : List String) (core : LoopCore) (exit : LoopExit) (core' : LoopCore) (rest' : List String),
      core.diffCut.length ≤ params.lineLimit →
      diffCutLoop params endErr core rest = .ok (exit, core', rest') →
      core'.diffCut.length ≤ params.lineLimit + 1 ∧
      (exit = .safety → core'.diffCut.length = params.lineLimit + 1) := by
  intro rest
  induction rest with
  | nil =>
    intro core exit core' rest' h1 hrun
    cases hg : exceededEnd params core with
    | true =>
      rw [diffCutLoop_nil_guard params endErr core hg] at hrun
      simp only [Except.ok.injEq, Prod.mk.injEq] at hrun
      obtain ⟨he, hc, -⟩ := hrun
      subst hc
      subst he
      exact ⟨by omega, by intro h; cases h⟩
    | false =>
      cases hee : endErr with
      | some e =>
        rw [hee, diffCutLoop_nil_err params core e hg] at hrun
        exact absurd hrun (by simp)
      | none =>
        rw [hee, diffCutLoop_nil_eof params core hg] at hrun
        simp only [Except.ok.injEq, Prod.mk.injEq] at hrun
        obtain ⟨he, hc, -⟩ := hrun
        subst hc
        subst he
        exact ⟨by omega, by intro h; cases h⟩
  | cons l ls ih =>
    intro core exit core' rest' h1 hrun
    cases hg : exceededEnd params core with
    | true =>
      rw [diffCutLoop_cons_guard params endErr core l ls hg] at hrun
      simp only [Except.ok.injEq, Prod.mk.injEq] at hrun
      obtain ⟨he, hc, -⟩ := hrun
      subst hc
      subst he
      exact ⟨by omega, by intro h; cases h⟩
    | false =>
      cases hcl : classifyHunkLine l with
      | err e =>
        rw [diffCutLoop_cons_err params endErr core l ls e hg hcl] at hrun
        exact absurd hrun (by simp)
      | terminator =>
        rw [diffCutLoop_cons_term params endErr core l ls hg hcl] at hrun
        simp only [Except.ok.injEq, Prod.mk.injEq] at hrun
        obtain ⟨he, hc, -⟩ := hrun
        subst hc
        subst he
        exact ⟨by omega, by intro h; cases h⟩
      | line s a =>
        obtain ⟨hsl, hal, -⟩ := classify_line_eq l s a hcl
        rw [hsl, hal] at hcl
        cases hbs : beforeStart params core with
        | true =>
          rw [diffCutLoop_cons_seek params endErr core l l ls (firstChar l) hg hcl hbs] at hrun
          have hf := advanceLines_fields (firstChar l) { core with buf := core.buf.push l }
          exact ih _ exit core' rest' (by rw [hf.2.2.1]; exact h1) hrun
        | false =>
          have hff := includeLine_fields l (firstChar l) core
          have hlen : (includeLine l (firstChar l) core).diffCut.length = core.diffCut.length + 1 := by
            rw [hff.1, List.length_append, List.length_singleton]
          by_cases hlim : (includeLine l (firstChar l) core).diffCut.length > params.lineLimit
          · rw [diffCutLoop_cons_safety params endErr core l l ls (firstChar l) hg hcl hbs hlim] at hrun
            simp only [Except.ok.injEq, Prod.mk.injEq] at hrun
            obtain ⟨he, hc, -⟩ := hrun
            subst hc
            rw [hlen]
            exact ⟨by omega, fun _ => by omega⟩
          · rw [diffCutLoop_cons_cut params endErr core l l ls (firstChar l) hg hcl hbs hlim] at hrun
            have hf2 := advanceLines_fields (firstChar l) (includeLine l (firstChar l) core)
            exact ih _ exit core' rest' (by rw [hf2.2.2.1]; omega) hrun

lemma scanFileHeader_absent (fh : String → Bool) :
    ∀ rest : List String, (∀ l ∈ rest, fh l = false) →
      scanFileHeader fh rest none = .error .hunkNotFound := by
  intro rest
  induction rest with
  | nil => intro _; rfl
  | cons l ls ih =>
    intro h
    rw [scanFileHeader, if_neg (by simp [h l (List.mem_cons_self l ls)])]
    exact ih fun x hx => h x (List.mem_cons_of_mem l hx)

lemma scanHunkHeader_absent (hh : String → Option HunkHeader) :
    ∀ rest : List String, (∀ l ∈ rest, hh l = none) →
      scanHunkHeader hh rest none = .error .hunkNotFound := by
  intro rest
  induction rest with
  | nil => intro _; rfl
  | cons l ls ih =>
    intro h
    rw [scanHunkHeader, h l (List.mem_cons_self l ls)]
    exact ih fun x hx => h x (List.mem_cons_of_mem l hx)

lemma collectAfter_length (n : Nat) :
    ∀ (rest : List String) (e : Option String), (collectAfter n rest e).1.length ≤ n := by
  induction n with
  | zero =>
    intro rest e
    simp [collectAfter]
  | succ n ih =>
    intro rest e
    cases rest with
    | nil => simp [collectAfter]
    | cons l ls =>
      rw [collectAfter]
      by_cases h : l = ""
      · rw [if_pos h]
        simp
      · rw [if_neg h]
        have := ih ls e
        simp only [List.length_cons]
        omega

/-- Closed form of the before-context reconciliation fold (step 8). -/
lemma foldl_adjustBefore (ls : List String) : ∀ h : HunkHeader,
    ls.foldl adjustBefore h =
      ⟨h.oldLine - (countNotAdded ls : Int), h.oldSpan + (countNotAdded ls : Int),
       h.newLine - (countNotRemoved ls : Int), h.newSpan + (countNotRemoved ls : Int)⟩ := by
  induction ls with
  | nil =>
    intro h
    simp only [List.foldl_nil, countNotAdded, countNotRemoved, List.filter_nil, List.length_nil]
    cases h
    simp
  | cons x ls ih =>
    intro h
    have hca : (countNotAdded (x :: ls) : Int) =
        (if firstChar x ≠ actionAdded then 1 else 0) + countNotAdded ls := by
      unfold countNotAdded
      rw [List.filter_cons]
      by_cases hx : firstChar x = actionAdded <;> simp [hx] <;> omega
    have hcr : (countNotRemoved (x :: ls) : Int) =
        (if firstChar x ≠ actionRemoved then 1 else 0) + countNotRemoved ls := by
      unfold countNotRemoved
      rw [List.filter_cons]
      by_cases hx : firstChar x = actionRemoved <;> simp [hx] <;> omega
    rw [List.foldl_cons, ih (adjustBefore h x), hca, hcr]
    have hne1 : actionAdded ≠ actionRemoved := by decide
    have hne2 : actionRemoved ≠ actionAdded := by decide
    by_cases ha : firstChar x = actionAdded
    · have hr : ¬ firstChar x = actionRemoved := by rw [ha]; decide
      simp [adjustBefore, ha, hr, hne1, hne2]
      try omega
    · by_cases hr : firstChar x = actionRemoved
      · simp [adjustBefore, ha, hr, hne1, hne2]
        try omega
      · simp [adjustBefore, ha, hr, hne1, hne2]
        try omega

/-- Closed form of the after-context reconciliation fold (step 8). -/
lemma foldl_adjustAfter (ls : List String) : ∀ h : HunkHeader,
    ls.foldl adjustAfter h =
      ⟨h.oldLine, h.oldSpan + (countNotAdded ls : Int),
       h.newLine, h.newSpan + (countNotRemoved ls : Int)⟩ := by
  induction ls with
  | nil =>
    intro h
    simp only [List.foldl_nil, countNotAdded, countNotRemoved, List.filter_nil, List.length_nil]
    cases h
    simp
  | cons x ls ih =>
    intro h
    have hca : (countNotAdded (x :: ls) : Int) =
        (if firstChar x ≠ actionAdded then 1 else 0) + countNotAdded ls := by
      unfold countNotAdded
      rw [List.filter_cons]
      by_cases hx : firstChar x = actionAdded <;> simp [hx] <;> omega
    have hcr : (countNotRemoved (x :: ls) : Int) =
        (if firstChar x ≠ actionRemoved then 1 else 0) + countNotRemoved ls := by
      unfold countNotRemoved
      rw [List.filter_cons]
      by_cases hx : firstChar x = actionRemoved <;> simp [hx] <;> omega
    rw [List.foldl_cons, ih (adjustAfter h x), hca, hcr]
    have hne1 : actionAdded ≠ actionRemoved := by decide
    have hne2 : actionRemoved ≠ actionAdded := by decide
    by_cases ha : firstChar x = actionAdded
    · have hr : ¬ firstChar x = actionRemoved := by rw [ha]; decide
      simp [adjustAfter, ha, hr, hne1, hne2]
      try omega
    · by_cases hr : firstChar x = actionRemoved
      · simp [adjustAfter, ha, hr, hne1, hne2]
        try omega
      · simp [adjustAfter, ha, hr, hne1, hne2]
        try omega

/-! ## Claim C9: ring buffer drain property -/

/-- **C9**: pushing `m` items into a fresh capacity-`k` ring buffer and
then draining yields exactly the last `min(m, k)` pushed items in their
original relative order; with capacity 0, `push` is a no-op and the drain
is always empty. -/
theorem strCircBuf_drain_last (k : Nat) (xs : List String) :
    (xs.foldl strCircBuf.push (newStrCircBuf k)).lines = xs.drop (xs.length - k) ∧
    (xs.foldl strCircBuf.push (newStrCircBuf k)).lines.length = min xs.length k ∧
    ∀ s : String, (newStrCircBuf 0).push s = newStrCircBuf 0 := by
  obtain ⟨h1, -, -⟩ := foldl_push_lines xs (newStrCircBuf k) (strCircBuf.inv_new k)
  have hcap : (newStrCircBuf k).cap = k := rfl
  have hlines : (newStrCircBuf k).lines = [] := strCircBuf.lines_new k
  rw [h1, hcap, hlines, foldl_absPush k xs [] (by simp)]
  simp only [List.nil_append, List.length_nil, Nat.zero_add]
  refine ⟨by trivial, ?_, ?_⟩
  · rw [List.length_drop]
    omega
  · intro s
    exact strCircBuf.push_zero _ s rfl

/-! ## DiffCut and diffCutPhases correspondence -/

lemma DiffCut_fh_err (fh : String → Bool) (hh : String → Option HunkHeader)
    (input : List String) (endErr : Option String) (params : DiffCutParams) (e : DiffErr)
    (h1 : scanFileHeader fh input endErr = .error e) :
    DiffCut fh hh input endErr params = (emptyHunkHeader, emptyHunk, some e) := by
  simp [DiffCut, h1]

lemma diffCutPhases_fh_err (fh : String → Bool) (hh : String → Option HunkHeader)
    (input : List String) (endErr : Option String) (params : DiffCutParams) (e : DiffErr)
    (h1 : scanFileHeader fh input endErr = .error e) :
    diffCutPhases fh hh input endErr params = none := by
  simp [diffCutPhases, h1]

lemma DiffCut_sh_err (fh : String → Bool) (hh : String → Option HunkHeader)
    (input : List String) (endErr : Option String) (params : DiffCutParams)
    (s1 : List String) (e : DiffErr)
    (h1 : scanFileHeader fh input endErr = .ok s1)
    (h2 : scanHunkHeader hh s1 endErr = .error e) :
    DiffCut fh hh input endErr params = (emptyHunkHeader, emptyHunk, some e) := by
  simp [DiffCut, h1, h2]

lemma diffCutPhases_sh_err (fh : String → Bool) (hh : String → Option HunkHeader)
    (input : List String) (endErr : Option String) (params : DiffCutParams)
    (s1 : List String) (e : DiffErr)
    (h1 : scanFileHeader fh input endErr = .ok s1)
    (h2 : scanHunkHeader hh s1 endErr = .error e) :
    diffCutPhases fh hh input endErr params = none := by
  simp [diffCutPhases, h1, h2]

lemma DiffCut_loop_err (fh : String → Bool) (hh : String → Option HunkHeader)
    (input : List String) (endErr : Option String) (params : DiffCutParams)
    (s1 s2 : List String) (h0 : HunkHeader) (e : DiffErr)
    (h1 : scanFileHeader fh input endErr = .ok s1)
    (h2 : scanHunkHeader hh s1 endErr = .ok (h0, s2))
    (h3 : diffCutLoop params endErr (initCore h0 params) s2 = .error e) :
    DiffCut fh hh input endErr params = (emptyHunkHeader, emptyHunk, some e) := by
  simp [DiffCut, h1, h2, h3]

lemma diffCutPhases_loop_err (fh : String → Bool) (hh : String → Option HunkHeader)
    (input : List String) (endErr : Option String) (params : DiffCutParams)
    (s1 s2 : List String) (h0 : HunkHeader) (e : DiffErr)
    (h1 : scanFileHeader fh input endErr = .ok s1)
    (h2 : scanHunkHeader hh s1 endErr = .ok (h0, s2))
    (h3 : diffCutLoop params endErr (initCore h0 params) s2 = .error e) :
    diffCutPhases fh hh input endErr params = none := by
  simp [diffCutPhases, h1, h2, h3]

lemma DiffCut_noCut (fh : String → Bool) (hh : String → Option HunkHeader)
    (input : List String) (endErr : Option String) (params : DiffCutParams)
    (s1 s2 s3 : List String) (h0 : HunkHeader) (exit : LoopExit) (core : LoopCore)
    (h1 : scanFileHeader fh input endErr = .ok s1)
    (h2 : scanHunkHeader hh s1 endErr = .ok (h0, s2))
    (h3 : diffCutLoop params endErr (initCore h0 params) s2 = .ok (exit, core, s3))
    (h4 : core.inCut = false) :
    DiffCut fh hh input endErr params = (emptyHunkHeader, emptyHunk, some .hunkNotFound) := by
  simp [DiffCut, h1, h2, h3, h4]

lemma diffCutPhases_noCut (fh : String → Bool) (hh : String → Option HunkHeader)
    (input : List String) (endErr : Option String) (params : DiffCutParams)
    (s1 s2 s3 : List String) (h0 : HunkHeader) (exit : LoopExit) (core : LoopCore)
    (h1 : scanFileHeader fh input endErr = .ok s1)
    (h2 : scanHunkHeader hh s1 endErr = .ok (h0, s2))
    (h3 : diffCutLoop params endErr (initCore h0 params) s2 = .ok (exit, core, s3))
    (h4 : core.inCut = false) :
    diffCutPhases fh hh input endErr params = none := by
  simp [diffCutPhases, h1, h2, h3, h4]

lemma DiffCut_after_err (fh : String → Bool) (hh : String → Option HunkHeader)
    (input : List String) (endErr : Option String) (params : DiffCutParams)
    (s1 s2 s3 : List String) (h0 : HunkHeader) (exit : LoopExit) (core : LoopCore)
    (la : List String) (e : String)
    (h1 : scanFileHeader fh input endErr = .ok s1)
    (h2 : scanHunkHeader hh s1 endErr = .ok (h0, s2))
    (h3 : diffCutLoop params endErr (initCore h0 params) s2 = .ok (exit, core, s3))
    (h4 : core.inCut = true)
    (h5 : (if exit = LoopExit.eofTerm then (([] : List String), (none : Option String))
           else collectAfter params.afterLines s3 endErr) = (la, some e)) :
    DiffCut fh hh input endErr params = (emptyHunkHeader, emptyHunk, some (.readErr e)) := by
  simp [DiffCut, h1, h2, h3, h4, h5]

lemma diffCutPhases_after_err (fh : String → Bool) (hh : String → Option HunkHeader)
    (input : List String) (endErr : Option String) (params : DiffCutParams)
    (s1 s2 s3 : List String) (h0 : HunkHeader) (exit : LoopExit) (core : LoopCore)
    (la : List String) (e : String)
    (h1 : scanFileHeader fh input endErr = .ok s1)
    (h2 : scanHunkHeader hh s1 endErr = .ok (h0, s2))
    (h3 : diffCutLoop params endErr (initCore h0 params) s2 = .ok (exit, core, s3))
    (h4 : core.inCut = true)
    (h5 : (if exit = LoopExit.eofTerm then (([] : List String), (none : Option String))
           else collectAfter params.afterLines s3 endErr) = (la, some e)) :
    diffCutPhases fh hh input endErr params = none := by
  simp [diffCutPhases, h1, h2, h3, h4, h5]

lemma DiffCut_ok (fh : String → Bool) (hh : String → Option HunkHeader)
    (input : List String) (endErr : Option String) (params : DiffCutParams)
    (s1 s2 s3 : List String) (h0 : HunkHeader) (exit : LoopExit) (core : LoopCore)
    (after : List String)
    (h1 : scanFileHeader fh input endErr = .ok s1)
    (h2 : scanHunkHeader hh s1 endErr = .ok (h0, s2))
    (h3 : diffCutLoop params endErr (initCore h0 params) s2 = .ok (exit, core, s3))
    (h4 : core.inCut = true)
    (h5 : (if exit = LoopExit.eofTerm then (([] : List String), (none : Option String))
           else collectAfter params.afterLines s3 endErr) = (after, none)) :
    DiffCut fh hh input endErr params =
      (core.diffCutHeader,
       { hunkHeader := after.foldl adjustAfter (core.buf.lines.foldl adjustBefore core.diffCutHeader),
         lines := core.buf.lines ++ (core.diffCut ++ after) }, none) := by
  simp [DiffCut, h1, h2, h3, h4, h5, concat]

lemma diffCutPhases_ok (fh : String → Bool) (hh : String → Option HunkHeader)
    (input : List String) (endErr : Option String) (params : DiffCutParams)
    (s1 s2 s3 : List String) (h0 : HunkHeader) (exit : LoopExit) (core : LoopCore)
    (after : List String)
    (h1 : scanFileHeader fh input endErr = .ok s1)
    (h2 : scanHunkHeader hh s1 endErr = .ok (h0, s2))
    (h3 : diffCutLoop params endErr (initCore h0 params) s2 = .ok (exit, core, s3))
    (h4 : core.inCut = true)
    (h5 : (if exit = LoopExit.eofTerm then (([] : List String), (none : Option String))
           else collectAfter params.afterLines s3 endErr) = (after, none)) :
    diffCutPhases fh hh input endErr params = some (exit, core, after) := by
  simp [diffCutPhases, h1, h2, h3, h4, h5]

lemma diffCut_phases_dichotomy (fh : String → Bool) (hh : String → Option HunkHeader)
    (input : List String) (endErr : Option String) (params : DiffCutParams) :
    (∃ e, DiffCut fh hh input endErr params = (emptyHunkHeader, emptyHunk, some e) ∧
      diffCutPhases fh hh input endErr params = none) ∨
    (∃ exit core after, diffCutPhases fh hh input endErr params = some (exit, core, after)) := by
  cases hfh : scanFileHeader fh input endErr with
  | error e =>
    exact .inl ⟨e, DiffCut_fh_err fh hh input endErr params e hfh,
      diffCutPhases_fh_err fh hh input endErr params e hfh⟩
  | ok s1 =>
    cases hsh : scanHunkHeader hh s1 endErr with
    | error e =>
      exact .inl ⟨e, DiffCut_sh_err fh hh input endErr params s1 e hfh hsh,
        diffCutPhases_sh_err fh hh input endErr params s1 e hfh hsh⟩
    | ok p =>
      obtain ⟨h0, s2⟩ := p
      cases hloop : diffCutLoop params endErr (initCore h0 params) s2 with
      | error e =>
        exact .inl ⟨e, DiffCut_loop_err fh hh input endErr params s1 s2 h0 e hfh hsh hloop,
          diffCutPhases_loop_err fh hh input endErr params s1 s2 h0 e hfh hsh hloop⟩
      | ok q =>
        obtain ⟨exit, core, s3⟩ := q
        cases hcut : core.inCut with
        | false =>
          exact .inl ⟨.hunkNotFound,
            DiffCut_noCut fh hh input endErr params s1 s2 s3 h0 exit core hfh hsh hloop hcut,
            diffCutPhases_noCut fh hh input endErr params s1 s2 s3 h0 exit core hfh hsh hloop hcut⟩
        | true =>
          rcases hca : (if exit = LoopExit.eofTerm then (([] : List String), (none : Option String))
            else collectAfter params.afterLines s3 endErr) with ⟨la, oe⟩
          cases oe with
          | some e =>
            exact .inl ⟨.readErr e,
              DiffCut_after_err fh hh input endErr params s1 s2 s3 h0 exit core la e hfh hsh hloop hcut hca,
              diffCutPhases_after_err fh hh input endErr params s1 s2 s3 h0 exit core la e hfh hsh hloop hcut hca⟩
          | none =>
            exact .inr ⟨exit, core, la,
              diffCutPhases_ok fh hh input endErr params s1 s2 s3 h0 exit core la hfh hsh hloop hcut hca⟩

lemma phases_spec (fh : String → Bool) (hh : String → Option HunkHeader)
    (input : List String) (endErr : Option String) (params : DiffCutParams)
    (exit : LoopExit) (core : LoopCore) (after : List String)
    (h : diffCutPhases fh hh input endErr params = some (exit, core, after)) :
    core.inCut = true ∧
    DiffCut fh hh input endErr params =
      (core.diffCutHeader,
       { hunkHeader := after.foldl adjustAfter (core.buf.lines.foldl adjustBefore core.diffCutHeader),
         lines := core.buf.lines ++ (core.diffCut ++ after) }, none) ∧
    ∃ h0 s1 s2 s3,
      scanFileHeader fh input endErr = .ok s1 ∧
      scanHunkHeader hh s1 endErr = .ok (h0, s2) ∧
      diffCutLoop params endErr (initCore h0 params) s2 = .ok (exit, core, s3) ∧
      (exit = .eofTerm → after = []) ∧
      (exit ≠ .eofTerm → collectAfter params.afterLines s3 endErr = (after, none)) := by
  cases hfh : scanFileHeader fh input endErr with
  | error e =>
    rw [diffCutPhases_fh_err fh hh input endErr params e hfh] at h
    exact absurd h (by simp)
  | ok s1 =>
    cases hsh : scanHunkHeader hh s1 endErr with
    | error e =>
      rw [diffCutPhases_sh_err fh hh input endErr params s1 e hfh hsh] at h
      exact absurd h (by simp)
    | ok p =>
      obtain ⟨h0, s2⟩ := p
      cases hloop : diffCutLoop params endErr (initCore h0 params) s2 with
      | error e =>
        rw [diffCutPhases_loop_err fh hh input endErr params s1 s2 h0 e hfh hsh hloop] at h
        exact absurd h (by simp)
      | ok q =>
        obtain ⟨exit', core', s3⟩ := q
        cases hcut : core'.inCut with
        | false =>
          rw [diffCutPhases_noCut fh hh input endErr params s1 s2 s3 h0 exit' core' hfh hsh hloop hcut] at h
          exact absurd h (by simp)
        | true =>
          rcases hca : (if exit' = LoopExit.eofTerm then (([] : List String), (none : Option String))
            else collectAfter params.afterLines s3 endErr) with ⟨la, oe⟩
          cases oe with
          | some e =>
            rw [diffCutPhases_after_err fh hh input endErr params s1 s2 s3 h0 exit' core' la e
              hfh hsh hloop hcut hca] at h
            exact absurd h (by simp)
          | none =>
            rw [diffCutPhases_ok fh hh input endErr params s1 s2 s3 h0 exit' core' la
              hfh hsh hloop hcut hca] at h
            simp only [Option.some.injEq, Prod.mk.injEq] at h
            obtain ⟨he, hc, hla⟩ := h
            subst he
            subst hc
            subst hla
            refine ⟨hcut,
              DiffCut_ok fh hh input endErr params s1 s2 s3 h0 exit' core' la hfh hsh hloop hcut hca,
              h0, s1, s2, s3, rfl, hsh, hloop, ?_, ?_⟩
            · intro hx
              rw [if_pos hx] at hca
              simp only [Prod.mk.injEq] at hca
              exact hca.1.symm
            · intro hx
              rw [if_neg hx] at hca
              exact hca

lemma countNotAdded_append (a b : List String) :
    countNotAdded (a ++ b) = countNotAdded a + countNotAdded b := by
  unfold countNotAdded
  rw [List.filter_append, List.length_append]

lemma countNotRemoved_append (a b : List String) :
    countNotRemoved (a ++ b) = countNotRemoved a + countNotRemoved b := by
  unfold countNotRemoved
  rw [List.filter_append, List.length_append]

lemma phases_core_facts (fh : String → Bool) (hh : String → Option HunkHeader)
    (input : List String) (endErr : Option String) (params : DiffCutParams)
    (exit : LoopExit) (core : LoopCore) (after : List String)
    (h : diffCutPhases fh hh input endErr params = some (exit, core, after)) :
    core.diffCutHeader.oldSpan = (countNotAdded core.diffCut : Int) ∧
    core.diffCutHeader.newSpan = (countNotRemoved core.diffCut : Int) ∧
    core.diffCut.length ≤ params.lineLimit + 1 ∧
    (exit = .safety → core.diffCut.length = params.lineLimit + 1) ∧
    after.length ≤ params.afterLines ∧
    (exit = .eofTerm → after = []) := by
  obtain ⟨-, -, h0, s1, s2, s3, -, -, hloop, heof, hneof⟩ :=
    phases_spec fh hh input endErr params exit core after h
  obtain ⟨hc1, hc2⟩ := diffCutLoop_counts params endErr s2 (initCore h0 params) exit core s3
    (by simp [initCore, emptyHunkHeader, countNotAdded])
    (by simp [initCore, emptyHunkHeader, countNotRemoved]) hloop
  obtain ⟨hl1, hl2⟩ := diffCutLoop_limit params endErr s2 (initCore h0 params) exit core s3
    (by simp [initCore]) hloop
  refine ⟨hc1, hc2, hl1, hl2, ?_, heof⟩
  by_cases hx : exit = LoopExit.eofTerm
  · rw [heof hx]
    simp
  · have := collectAfter_length params.afterLines s3 endErr
    rw [hneof hx] at this
    exact this

lemma classify_terminator (l : String) (h0 : l ≠ "")
    (h1 : firstChar l ≠ actionRemoved) (h2 : firstChar l ≠ actionAdded)
    (h3 : firstChar l ≠ actionUnchanged) :
    classifyHunkLine l = .terminator := by
  simp [classifyHunkLine, h0, h1, h2, h3]

lemma classify_empty : classifyHunkLine "" = .err .hunkNotFound := rfl

/-! ## Claim theorems -/

/-- **C1**: for every successful `DiffCut` invocation, the returned
`Hunk`'s header satisfies the span reconciliation law: `OldSpan` equals the
number of lines of `Hunk.Lines` whose action (first byte) is not added,
and `NewSpan` the number whose action is not removed. -/
theorem diffCut_span_reconciliation (fh : String → Bool) (hh : String → Option HunkHeader)
    (input : List String) (endErr : Option String) (params : DiffCutParams)
    (hdr : HunkHeader) (hunk : Hunk)
    (h : DiffCut fh hh input endErr params = (hdr, hunk, none)) :
    hunk.hunkHeader.oldSpan = (countNotAdded hunk.lines : Int) ∧
    hunk.hunkHeader.newSpan = (countNotRemoved hunk.lines : Int) := by
  rcases diffCut_phases_dichotomy fh hh input endErr params with ⟨e, hD, -⟩ | ⟨exit, core, after, hp⟩
  · rw [h] at hD
    simp at hD
  · obtain ⟨-, hD, -⟩ := phases_spec fh hh input endErr params exit core after hp
    obtain ⟨hc1, hc2, -, -, -, -⟩ := phases_core_facts fh hh input endErr params exit core after hp
    rw [h] at hD
    simp only [Prod.mk.injEq] at hD
    obtain ⟨-, hhunk, -⟩ := hD
    subst hhunk
    rw [foldl_adjustBefore, foldl_adjustAfter]
    simp only [countNotAdded_append, countNotRemoved_append]
    constructor
    · show core.diffCutHeader.oldSpan + (countNotAdded core.buf.lines : Int) +
        (countNotAdded after : Int) = _
      rw [hc1]
      push_cast
      ring
    · show core.diffCutHeader.newSpan + (countNotRemoved core.buf.lines : Int) +
        (countNotRemoved after : Int) = _
      rw [hc2]
      push_cast
      ring

/-- Witness for C1 at the concrete §8 scenario stream. -/
theorem diffCut_span_reconciliation_witness :
    (⟨⟨5, 2, 5, 2⟩, [" a", "-b", "+c"]⟩ : Hunk).hunkHeader.oldSpan =
      (countNotAdded ([" a", "-b", "+c"] : List String) : Int) ∧
    (⟨⟨5, 2, 5, 2⟩, [" a", "-b", "+c"]⟩ : Hunk).hunkHeader.newSpan =
      (countNotRemoved ([" a", "-b", "+c"] : List String) : Int) :=
  diffCut_span_reconciliation fhT hhT inS none pS ⟨6, 1, 6, 0⟩ ⟨⟨5, 2, 5, 2⟩, [" a", "-b", "+c"]⟩
    (by decide)

/-- **C2**: on every successful invocation, the returned `Hunk.Lines` is
exactly `before ++ cut ++ after` (ring-buffer drain, then the cut, then the
trailing context); the hunk's header covers the combined span of that full
sequence, its start walked backward over the before-context; and the
separately returned exact-window header is the loop's snapshot at the first
cut line, unmodified by the context. -/
theorem diffCut_assembly (fh : String → Bool) (hh : String → Option HunkHeader)
    (input : List String) (endErr : Option String) (params : DiffCutParams)
    (exit : LoopExit) (core : LoopCore) (after : List String)
    (h : diffCutPhases fh hh input endErr params = some (exit, core, after)) :
    DiffCut fh hh input endErr params =
      (core.diffCutHeader,
       { hunkHeader :=
           { oldLine := core.diffCutHeader.oldLine - (countNotAdded core.buf.lines : Int),
             oldSpan := (countNotAdded (core.buf.lines ++ (core.diffCut ++ after)) : Int),
             newLine := core.diffCutHeader.newLine - (countNotRemoved core.buf.lines : Int),
             newSpan := (countNotRemoved (core.buf.lines ++ (core.diffCut ++ after)) : Int) },
         lines := core.buf.lines ++ (core.diffCut ++ after) }, none) := by
  obtain ⟨-, hD, -⟩ := phases_spec fh hh input endErr params exit core after h
  obtain ⟨hc1, hc2, -, -, -, -⟩ := phases_core_facts fh hh input endErr params exit core after h
  rw [hD]
  have e1 : (countNotAdded (core.buf.lines ++ (core.diffCut ++ after)) : Int) =
      core.diffCutHeader.oldSpan + (countNotAdded core.buf.lines : Int) +
        (countNotAdded after : Int) := by
    rw [hc1, countNotAdded_append, countNotAdded_append]
    push_cast
    ring
  have e2 : (countNotRemoved (core.buf.lines ++ (core.diffCut ++ after)) : Int) =
      core.diffCutHeader.newSpan + (countNotRemoved core.buf.lines : Int) +
        (countNotRemoved after : Int) := by
    rw [hc2, countNotRemoved_append, countNotRemoved_append]
    push_cast
    ring
  rw [e1, e2, foldl_adjustBefore, foldl_adjustAfter]

/-- Witness for C2 at the concrete §8 scenario stream. -/
theorem diffCut_assembly_witness :
    DiffCut fhT hhT inS none pS =
      (coreS.diffCutHeader,
       { hunkHeader :=
           { oldLine := coreS.diffCutHeader.oldLine - (countNotAdded coreS.buf.lines : Int),
             oldSpan := (countNotAdded (coreS.buf.lines ++ (coreS.diffCut ++ ["+c"])) : Int),
             newLine := coreS.diffCutHeader.newLine - (countNotRemoved coreS.buf.lines : Int),
             newSpan := (countNotRemoved (coreS.buf.lines ++ (coreS.diffCut ++ ["+c"])) : Int) },
         lines := coreS.buf.lines ++ (coreS.diffCut ++ ["+c"]) }, none) :=
  diffCut_assembly fhT hhT inS none pS .guard coreS ["+c"] (by decide)

/-- **C3**: `DiffCut` returns the `HunkNotFound` error when the file header
is absent (no stream line matches the recognizer and the stream ends
cleanly), when the hunk header is absent, or when no line of the hunk was
ever included in the cut (`inCut` never set) — the last case even when the
stream ended normally via the terminator. -/
theorem diffCut_hunkNotFound_conditions (fh : String → Bool) (hh : String → Option HunkHeader)
    (input : List String) (endErr : Option String) (params : DiffCutParams) :
    ((∀ l ∈ input, fh l = false) → endErr = none →
      DiffCut fh hh input endErr params = (emptyHunkHeader, emptyHunk, some .hunkNotFound)) ∧
    (∀ s1, scanFileHeader fh input endErr = .ok s1 → (∀ l ∈ s1, hh l = none) → endErr = none →
      DiffCut fh hh input endErr params = (emptyHunkHeader, emptyHunk, some .hunkNotFound)) ∧
    (∀ h0 s1 s2 s3 exit core, scanFileHeader fh input endErr = .ok s1 →
      scanHunkHeader hh s1 endErr = .ok (h0, s2) →
      diffCutLoop params endErr (initCore h0 params) s2 = .ok (exit, core, s3) →
      core.inCut = false →
      DiffCut fh hh input endErr params = (emptyHunkHeader, emptyHunk, some .hunkNotFound)) := by
  refine ⟨?_, ?_, ?_⟩
  · intro habs hend
    subst hend
    exact DiffCut_fh_err fh hh input none params .hunkNotFound (scanFileHeader_absent fh input habs)
  · intro s1 hok habs hend
    subst hend
    exact DiffCut_sh_err fh hh input none params s1 .hunkNotFound hok
      (scanHunkHeader_absent hh s1 habs)
  · intro h0 s1 s2 s3 exit core hok1 hok2 hloop hcut
    exact DiffCut_noCut fh hh input endErr params s1 s2 s3 h0 exit core hok1 hok2 hloop hcut

/-- Witness for C3: a stream with no file header yields `HunkNotFound`. -/
theorem diffCut_hunkNotFound_conditions_witness :
    DiffCut fhT hhT ["x"] none pS = (emptyHunkHeader, emptyHunk, some .hunkNotFound) :=
  (diffCut_hunkNotFound_conditions fhT hhT ["x"] none pS).1 (by decide) rfl

/-- Counterexample to **C4** as stated: with `LineLimit = 0` and a window
covering the hunk, the accumulated cut holds 1 line, exceeding `LineLimit`. -/
theorem diffCut_limit_counterexample :
    ((diffCutPhases fhT hhT inC7 none pC7).map fun x => x.2.1.diffCut.length) = some 1 ∧
    pC7.lineLimit = 0 := by decide

/-- **C4 (amended)**: the accumulated cut never holds more than
`LineLimit + 1` lines (the safety break appends the exceeding line first,
then stops). -/
theorem diffCut_limit_amended (fh : String → Bool) (hh : String → Option HunkHeader)
    (input : List String) (endErr : Option String) (params : DiffCutParams)
    (exit : LoopExit) (core : LoopCore) (after : List String)
    (h : diffCutPhases fh hh input endErr params = some (exit, core, after)) :
    core.diffCut.length ≤ params.lineLimit + 1 :=
  (phases_core_facts fh hh input endErr params exit core after h).2.2.1

/-- Witness for the amended C4 at the §8 scenario stream. -/
theorem diffCut_limit_amended_witness : coreS.diffCut.length ≤ pS.lineLimit + 1 :=
  diffCut_limit_amended fhT hhT inS none pS .guard coreS ["+c"] (by decide)

/-- **C5**: the `LineLimit` safety break follows the append-then-check
policy: whenever the scan loop ends via the safety break, the cut holds
exactly `LineLimit + 1` lines — the line making the running count exceed
`LineLimit` is itself included and the loop stops immediately after it
(with `LineLimit = 0`, the cut holds exactly one line). -/
theorem diffCut_safety_break (params : DiffCutParams) (endErr : Option String)
    (rest : List String) (core : LoopCore) (core' : LoopCore) (rest' : List String)
    (hlen : core.diffCut.length ≤ params.lineLimit)
    (h : diffCutLoop params endErr core rest = .ok (.safety, core', rest')) :
    core'.diffCut.length = params.lineLimit + 1 :=
  (diffCutLoop_limit params endErr rest core .safety core' rest' hlen h).2 rfl

/-- Witness for C5: a `LineLimit = 0` run whose cut holds exactly one line. -/
theorem diffCut_safety_break_witness : coreC5.diffCut.length = pC7.lineLimit + 1 :=
  diffCut_safety_break pC7 none [" a", " b", " c", " d"] (initCore ⟨5, 4, 5, 5⟩ pC7)
    coreC5 [" b", " c", " d"] (by decide) rfl

/-- Counterexample to **C6** as stated: an empty hunk-content line is not
treated as an EOF-style terminator — it aborts `DiffCut` with the hard
`ErrHunkNotFound` error (zero results), while the same stream with a
non-empty unrecognized line in that position succeeds. -/
theorem terminator_empty_line_counterexample :
    DiffCut fhT hhT inC6 none pC6 = (emptyHunkHeader, emptyHunk, some .hunkNotFound) ∧
    DiffCut fhT hhT inC6T none pC6 =
      (⟨5, 1, 5, 1⟩, ⟨⟨5, 1, 5, 1⟩, [" a"]⟩, none) := by decide

/-- **C6 (amended)**: a non-empty hunk-content line whose leading byte is
not `' '`, `'-'` or `'+'` ends the scan loop as the terminator, recorded as
an EOF-style exit distinct from a hard error, with the line not classified
and not included anywhere; an empty hunk-content line instead aborts the
loop with the hard `ErrHunkNotFound` error. -/
theorem terminator_line_amended (params : DiffCutParams) (endErr : Option String)
    (core : LoopCore) (l : String) (ls : List String)
    (hguard : exceededEnd params core = false) :
    (l ≠ "" → firstChar l ≠ actionUnchanged → firstChar l ≠ actionRemoved →
      firstChar l ≠ actionAdded →
      diffCutLoop params endErr core (l :: ls) = .ok (.eofTerm, core, ls)) ∧
    (l = "" → diffCutLoop params endErr core (l :: ls) = .error .hunkNotFound) := by
  constructor
  · intro h0 h3 h1 h2
    exact diffCutLoop_cons_term params endErr core l ls hguard
      (classify_terminator l h0 h1 h2 h3)
  · intro h0
    subst h0
    exact diffCutLoop_cons_err params endErr core "" ls .hunkNotFound hguard classify_empty

/-- Witness for the amended C6: the unrecognized line `"XX"` ends the loop
as the terminator with the state unchanged. -/
theorem terminator_line_amended_witness :
    diffCutLoop pC6 none (initCore ⟨5, 4, 5, 5⟩ pC6) ["XX"] =
      .ok (.eofTerm, initCore ⟨5, 4, 5, 5⟩ pC6, []) :=
  (terminator_line_amended pC6 none (initCore ⟨5, 4, 5, 5⟩ pC6) "XX" [] rfl).1
    (by decide) (by decide) (by decide) (by decide)

/-- Counterexample to **C7** as stated: a run whose scan loop ends via the
safety break (not the termination guard) still collects trailing context. -/
theorem trailing_context_counterexample :
    ((diffCutPhases fhT hhT inC7 none pC7).map fun x => (x.1, x.2.2)) =
      some (LoopExit.safety, [" b", " c"]) := by decide

/-- **C7 (amended)**: at most `AfterLines` trailing lines are collected;
no trailing context is collected when the loop ended via the terminator
line; and when the loop ended via the guard or the safety break, a read
failure during trailing-context collection is fatal: `DiffCut` returns
that error with zero results. -/
theorem trailing_context_amended :
    (∀ (n : Nat) (rest : List String) (e : Option String),
      (collectAfter n rest e).1.length ≤ n) ∧
    (∀ (fh : String → Bool) (hh : String → Option HunkHeader) (input : List String)
      (endErr : Option String) (params : DiffCutParams) (exit : LoopExit) (core : LoopCore)
      (after : List String),
      diffCutPhases fh hh input endErr params = some (exit, core, after) →
      exit = LoopExit.eofTerm → after = []) ∧
    (∀ (fh : String → Bool) (hh : String → Option HunkHeader) (input : List String)
      (endErr : Option String) (params : DiffCutParams) (s1 s2 s3 : List String)
      (h0 : HunkHeader) (exit : LoopExit) (core : LoopCore) (la : List String) (e : String),
      scanFileHeader fh input endErr = .ok s1 →
      scanHunkHeader hh s1 endErr = .ok (h0, s2) →
      diffCutLoop params endErr (initCore h0 params) s2 = .ok (exit, core, s3) →
      core.inCut = true → exit ≠ LoopExit.eofTerm →
      collectAfter params.afterLines s3 endErr = (la, some e) →
      DiffCut fh hh input endErr params = (emptyHunkHeader, emptyHunk, some (.readErr e))) := by
  refine ⟨collectAfter_length, ?_, ?_⟩
  · intro fh hh input endErr params exit core after h hx
    obtain ⟨-, -, h0, s1, s2, s3, -, -, -, heof, -⟩ :=
      phases_spec fh hh input endErr params exit core after h
    exact heof hx
  · intro fh hh input endErr params s1 s2 s3 h0 exit core la e hok1 hok2 hloop hcut hx hca
    apply DiffCut_after_err fh hh input endErr params s1 s2 s3 h0 exit core la e
      hok1 hok2 hloop hcut
    rw [if_neg hx]
    exact hca

/-- Witness for the amended C7: a stream failing during trailing-context
collection makes `DiffCut` surface the read error with zero results. -/
theorem trailing_context_amended_witness :
    DiffCut fhT hhT ["FH", "HH", " a"] (some "boom") pC7w =
      (emptyHunkHeader, emptyHunk, some (.readErr "boom")) :=
  trailing_context_amended.2.2 fhT hhT ["FH", "HH", " a"] (some "boom") pC7w
    ["HH", " a"] [" a"] [] ⟨5, 4, 5, 5⟩ .guard coreC7w [] "boom"
    rfl rfl rfl rfl (by decide) rfl

/-- **C8**: old/new numbering independence — in a hunk with two insertions
making old-file line 10 the same physical line as new-file line 12,
requesting `LineStart = 10` against old numbering and `LineStart = 12`
against new numbering selects the same physical line `" e"` as the first
(and only) line of the cut, with identical exact-window headers. -/
theorem diffCut_oldnew_independence :
    ((diffCutPhases fhT hhT8 in8 none p8A).map fun x => x.2.1.diffCut) = some [" e"] ∧
    ((diffCutPhases fhT hhT8 in8 none p8B).map fun x => x.2.1.diffCut) = some [" e"] ∧
    ((diffCutPhases fhT hhT8 in8 none p8A).map fun x => x.2.1.diffCutHeader) =
      some ⟨10, 1, 12, 1⟩ ∧
    ((diffCutPhases fhT hhT8 in8 none p8B).map fun x => x.2.1.diffCutHeader) =
      some ⟨10, 1, 12, 1⟩ := by decide

/-- **C10**: error atomicity — whenever `DiffCut` returns a non-nil error,
both other returned values are the Go zero values: no partial result ever
accompanies an error. -/
theorem diffCut_error_atomicity (fh : String → Bool) (hh : String → Option HunkHeader)
    (input : List String) (endErr : Option String) (params : DiffCutParams)
    (hdr : HunkHeader) (hunk : Hunk) (e : DiffErr)
    (h : DiffCut fh hh input endErr params = (hdr, hunk, some e)) :
    hdr = emptyHunkHeader ∧ hunk = emptyHunk := by
  rcases diffCut_phases_dichotomy fh hh input endErr params with ⟨e', hD, -⟩ | ⟨exit, core, after, hp⟩
  · rw [h] at hD
    simp only [Prod.mk.injEq] at hD
    exact ⟨hD.1, hD.2.1⟩
  · obtain ⟨-, hD, -⟩ := phases_spec fh hh input endErr params exit core after hp
    rw [h] at hD
    simp at hD

/-- Witness for C10 at a concrete failing stream. -/
theorem diffCut_error_atomicity_witness :
    emptyHunkHeader = emptyHunkHeader ∧ emptyHunk = emptyHunk :=
  diffCut_error_atomicity fhT hhT ["x"] none pS emptyHunkHeader emptyHunk .hunkNotFound
    (by decide)
